import Mathlib

/-!
Verification development for the NAVI Change Analyzer core pipeline
(`navica/core/parser.py`, `navica/core/mapping.py`, `navica/core/scoring.py`,
`navica/data/db.py`).  The Python sources are shallowly embedded below:
pure functions become Lean functions, Python dicts become insertion-ordered
association lists, Python floats become rationals, `datetime` values become
integers (day granularity), and code that can raise becomes `Except`-valued.
-/

namespace Navica

/-! ## Python string primitives -/

/-- Python whitespace, as used by `str.strip()` and the regex class `\s`
(ASCII fragment; all identifiers handled by the tool are ASCII). -/
def isPySpace (c : Char) : Bool :=
  c = ' ' || c = '\t' || c = '\n' || c = '\r' || c = '\x0b' || c = '\x0c'

/-- `str.strip()` on a character list. -/
def stripChars (cs : List Char) : List Char :=
  ((cs.dropWhile isPySpace).reverse.dropWhile isPySpace).reverse

/-- `str.upper()` (ASCII case mapping). -/
def upperChars (cs : List Char) : List Char :=
  cs.map Char.toUpper

/-- `str.upper()` on a `String` (identical to `String.toUpper`, spelled via
the character list so that it evaluates inside the kernel). -/
def pyUpper (s : String) : String :=
  String.mk (upperChars s.data)

/-- Line-boundary characters of Python `str.splitlines()`. -/
def isLineBreak (c : Char) : Bool :=
  c = '\n' || c = '\r' || c = '\x0b' || c = '\x0c' || c = '\x1c' ||
  c = '\x1d' || c = '\x1e' || c = '\x85' || c = '\u2028' || c = '\u2029'

/-- Worker for `str.splitlines()`: `acc` holds the current line reversed.
A terminal line break produces no trailing empty line. -/
def splitLinesGo : List Char → List Char → List (List Char)
  | [], acc => if acc.isEmpty then [] else [acc.reverse]
  | '\r' :: '\n' :: t, acc => acc.reverse :: splitLinesGo t []
  | c :: t, acc =>
    if isLineBreak c then acc.reverse :: splitLinesGo t []
    else splitLinesGo t (c :: acc)

/-- Python `str.splitlines()`. -/
def pySplitLines (cs : List Char) : List (List Char) :=
  splitLinesGo cs []

/-- Worker for whitespace splitting (`re.split(r"[\t\s]+", ln)` applied to an
already-stripped line, so no empty tokens arise). -/
def splitWsGo : List Char → List Char → List (List Char)
  | [], acc => if acc.isEmpty then [] else [acc.reverse]
  | c :: t, acc =>
    if isPySpace c then
      if acc.isEmpty then splitWsGo t [] else acc.reverse :: splitWsGo t []
    else splitWsGo t (c :: acc)

/-- Whitespace split of a stripped line into its tokens. -/
def splitWs (cs : List Char) : List (List Char) :=
  splitWsGo cs []

/-! ## Insertion-ordered dictionaries

Python 3 `dict` semantics: assignment to an existing key replaces the value
in place (the key keeps its original position); a new key is appended. -/

/-- `d[k] = v` on an insertion-ordered association list. -/
def dictInsert {α : Type} (d : List (String × α)) (k : String) (v : α) :
    List (String × α) :=
  match d with
  | [] => [(k, v)]
  | (k', v') :: rest =>
    if k' = k then (k, v) :: rest else (k', v') :: dictInsert rest k v

/-- `d.get(k)`. -/
def dictLookup {α : Type} (d : List (String × α)) (k : String) : Option α :=
  match d with
  | [] => none
  | (k', v) :: rest => if k' = k then some v else dictLookup rest k

/-- `list(d.values())`. -/
def dictValues {α : Type} (d : List (String × α)) : List α :=
  d.map Prod.snd

/-- `list(d.keys())`. -/
def dictKeys {α : Type} (d : List (String × α)) : List String :=
  d.map Prod.fst

/-- Insert a sequence of key/value pairs in order. -/
def insertAll {α : Type} (d : List (String × α)) (ps : List (String × α)) :
    List (String × α) :=
  ps.foldl (fun d p => dictInsert d p.1 p.2) d

/-! ## parser.py -/

/-- `KNOWN_TYPES` from parser.py. -/
def KNOWN_TYPES : List String :=
  ["PROG", "REPS", "REPT",
   "CMOD", "SMOD", "ENHO", "ENHS", "SPOT",
   "CLAS", "INTF", "FUGR", "FUNC",
   "TABL", "VIEW", "DTEL", "DOMA", "TTYP", "DDLS"]

/-- `_norm(s) = (s or "").strip().upper()` from parser.py, on char lists. -/
def _norm (cs : List Char) : List Char :=
  upperChars (stripChars cs)

/-- The canonical object record built by `_make_obj` in parser.py. -/
structure Obj where
  obj_class : String
  obj_type : String
  obj_name : String
  subtype : Option String
  package : Option String
  component : Option String
  raw : String
  normalized_key : String
deriving DecidableEq, Repr

/-- `_make_obj` from parser.py.  `package`/`component` are kept only when
truthy (Python: `_norm(package) if package else None`); `raw` is stripped. -/
def _make_obj (obj_class obj_type obj_name raw : List Char)
    (package component : Option (List Char)) : Obj :=
  let c := _norm obj_class
  let t := _norm obj_type
  let n := _norm obj_name
  { obj_class := String.mk c
    obj_type := String.mk t
    obj_name := String.mk n
    subtype := none
    package :=
      package.bind fun p => if p.isEmpty then none else some (String.mk (_norm p))
    component :=
      component.bind fun p => if p.isEmpty then none else some (String.mk (_norm p))
    raw := String.mk (stripChars raw)
    normalized_key := String.mk (c ++ ':' :: t ++ ':' :: n) }

/-- Regex class `[A-Z0-9_]` under `re.IGNORECASE`. -/
def isTypeChar (c : Char) : Bool :=
  (decide ('A' ≤ c.toUpper) && decide (c.toUpper ≤ 'Z')) ||
  (decide ('0' ≤ c) && decide (c ≤ '9')) || c = '_'

/-- Regex class `[A-Z0-9_/\\\-~><=]` under `re.IGNORECASE`. -/
def isNameChar (c : Char) : Bool :=
  isTypeChar c || c = '/' || c = '\\' || c = '-' || c = '~' || c = '>' ||
  c = '<' || c = '='

/-- Attempt `_ABAP_LINE_RE` anchored at the start of `cs`.  The pattern is
`(R3TR|LIMU)\s+([A-Z0-9_]{3,5})\s+([A-Z0-9_/\\\-~><=]+)` with `IGNORECASE`.
Since the `{3,5}` repetition is followed by `\s+` and the two classes are
disjoint, backtracking succeeds exactly when the maximal `[A-Z0-9_]` run has
length 3–5 and is followed by whitespace.  Captures are returned in their
original case. -/
def abapMatchAt (cs : List Char) : Option (List Char × List Char × List Char) :=
  match cs with
  | c1 :: c2 :: c3 :: c4 :: rest =>
    let cls := upperChars [c1, c2, c3, c4]
    if cls = "R3TR".toList || cls = "LIMU".toList then
      let sp1 := rest.takeWhile isPySpace
      let r1 := rest.dropWhile isPySpace
      if sp1.isEmpty then none
      else
        let ty := r1.takeWhile isTypeChar
        let r2 := r1.dropWhile isTypeChar
        if 3 ≤ ty.length && ty.length ≤ 5 then
          let sp2 := r2.takeWhile isPySpace
          let r3 := r2.dropWhile isPySpace
          if sp2.isEmpty then none
          else
            let nm := r3.takeWhile isNameChar
            if nm.isEmpty then none else some ([c1, c2, c3, c4], ty, nm)
        else none
    else none
  | _ => none

/-- `_ABAP_LINE_RE.search(ln)`: try the anchored match at every position,
left to right. -/
def abapSearch : List Char → Option (List Char × List Char × List Char)
  | [] => none
  | c :: t =>
    match abapMatchAt (c :: t) with
    | some r => some r
    | none => abapSearch t

/-- The per-line body of the loop in `parse_abap_object_text`: regex match,
then the `{R3TR, LIMU}` three-token fallback, then the `KNOWN_TYPES`
two-token fallback; unrecognized lines yield nothing. -/
def parseLine (line : List Char) : Option Obj :=
  let ln := stripChars line
  if ln.isEmpty then none
  else
    match abapSearch ln with
    | some (cls, ty, nm) => some (_make_obj cls ty nm ln none none)
    | none =>
      match splitWs ln with
      | p0 :: p1 :: p2 :: _ =>
        if _norm p0 = "R3TR".toList || _norm p0 = "LIMU".toList then
          some (_make_obj p0 (_norm p1) (_norm p2) ln none none)
        else if KNOWN_TYPES.contains (String.mk (_norm p0)) then
          some (_make_obj "R3TR".toList p0 p1 ln none none)
        else none
      | [p0, p1] =>
        if KNOWN_TYPES.contains (String.mk (_norm p0)) then
          some (_make_obj "R3TR".toList p0 p1 ln none none)
        else none
      | _ => none

/-- The sequence of objects produced line by line by
`parse_abap_object_text`, before deduplication. -/
def textRecords (text : String) : List Obj :=
  (pySplitLines text.toList).filterMap parseLine

/-- The `found` dict accumulation shared by all three loaders: insert each
record under its `normalized_key` into a Python dict, return the values. -/
def dedupByKey (records : List Obj) : List Obj :=
  dictValues (insertAll [] (records.map fun o => (o.normalized_key, o)))

/-- `parse_abap_object_text` from parser.py.  The guard mirrors
`if not text or not text.strip(): return []` (empty text also has an empty
strip, so one check suffices); the loop accumulates into a Python dict keyed
by `normalized_key` and returns its values. -/
def parse_abap_object_text (text : String) : List Obj :=
  if (stripChars text.toList).isEmpty then []
  else dedupByKey (textRecords text)

/-! ## CSV mode (`load_objects_from_csv`)

The embedding of CSV mode starts from the already-tokenized `DictReader`
rows (`raw_bytes.decode("utf-8", errors="replace")` itself never raises).
This collapses the raise sites inside the `csv` module's own tokenizer —
notably, iterating the reader raises `csv.Error` ("field larger than field
limit") for a field beyond the default 131072-character limit — so the
model supports only row-level statements about this loader and no
never-raises property is claimed for CSV mode.  A row maps each header
field to an optional value (`none` models Python `None`, produced for data
rows shorter than the header); a key can also be absent entirely. -/

/-- A `csv.DictReader` row. -/
def CsvRow : Type := List (String × Option String)

/-- `row.get(k)`: `none` for a missing key or a `None` value. -/
def csvGet (r : CsvRow) (k : String) : Option String :=
  (dictLookup r k).join

/-- `row.get(k, d)`: the default applies only when the key is missing. -/
def csvGetD (r : CsvRow) (k d : String) : Option String :=
  match dictLookup r k with
  | none => some d
  | some v => v

/-- Python `a or b` on optional strings: `a` unless it is `None` or empty. -/
def pyOrS (a b : Option String) : Option String :=
  if a.getD "" = "" then b else a

/-- The per-row body of the loop in `load_objects_from_csv`: header aliasing
for type/name/package/component, then skip when type or name is falsy.
`dumps` abstracts `json.dumps(row)`, which only feeds the traceability
field `raw`. -/
def rowToObj (dumps : CsvRow → String) (r : CsvRow) : Option Obj :=
  let obj_class := csvGetD r "obj_class" "R3TR"
  let obj_type :=
    (pyOrS (csvGet r "obj_type") (pyOrS (csvGet r "object_type") (csvGet r "type"))).getD ""
  let obj_name :=
    (pyOrS (csvGet r "obj_name") (pyOrS (csvGet r "object_name") (csvGet r "name"))).getD ""
  let package := pyOrS (csvGet r "package") (csvGet r "devclass")
  let component := csvGet r "component"
  if obj_type = "" || obj_name = "" then none
  else some (_make_obj (obj_class.getD "").toList obj_type.toList obj_name.toList
    (dumps r).toList (package.map (·.toList)) (component.map (·.toList)))

/-- The objects produced row by row by `load_objects_from_csv`, before
deduplication. -/
def csvRecords (dumps : CsvRow → String) (rows : List CsvRow) : List Obj :=
  rows.filterMap (rowToObj dumps)

/-- `load_objects_from_csv` from parser.py (empty input bytes give an empty
row list, hence `[]`). -/
def load_objects_from_csv (dumps : CsvRow → String) (rows : List CsvRow) : List Obj :=
  dedupByKey (csvRecords dumps rows)

/-! ## JSON mode (`load_objects_from_json`)

Unlike the other two modes, `load_objects_from_json` has raise sites:
`json.loads` on undecodable bytes, `data.get` on a decoded non-dict
(including a bare array, despite the `data if isinstance(data, list)` default
expression — attribute lookup on the list fails first), iterating a
non-iterable `objects` value, and `_norm` on truthy non-string field values.
These are modelled with `Except`. -/

/-- A decoded JSON value.  `null` doubles as Python `None` (which is exactly
what `json.loads` produces for it). -/
inductive Json where
  | null
  | bool (b : Bool)
  | num (n : Int)
  | str (s : String)
  | arr (xs : List Json)
  | obj (fields : List (String × Json))
deriving Repr

mutual

/-- Structural equality test for JSON values. -/
def Json.beq : Json → Json → Bool
  | .null, .null => true
  | .bool a, .bool b => a = b
  | .num a, .num b => a = b
  | .str a, .str b => a = b
  | .arr xs, .arr ys => Json.beqList xs ys
  | .obj xs, .obj ys => Json.beqFields xs ys
  | _, _ => false

/-- Elementwise `Json.beq` on arrays. -/
def Json.beqList : List Json → List Json → Bool
  | [], [] => true
  | x :: xs, y :: ys => Json.beq x y && Json.beqList xs ys
  | _, _ => false

/-- Fieldwise `Json.beq` on objects. -/
def Json.beqFields : List (String × Json) → List (String × Json) → Bool
  | [], [] => true
  | (k1, v1) :: xs, (k2, v2) :: ys => k1 = k2 && Json.beq v1 v2 && Json.beqFields xs ys
  | _, _ => false

end

instance : BEq Json := ⟨Json.beq⟩

/-- Python truthiness of a decoded JSON value. -/
def jsonTruthy : Json → Bool
  | .null => false
  | .bool b => b
  | .num n => n ≠ 0
  | .str s => s ≠ ""
  | .arr xs => !xs.isEmpty
  | .obj fs => !fs.isEmpty

/-- The exceptions the embedded fragments can raise. -/
inductive PyErr where
  | jsonDecodeError
  | attributeError
  | typeError
deriving DecidableEq, Repr

/-- `d.get(k, default)` on a decoded JSON object. -/
def jsonGetD (fs : List (String × Json)) (k : String) (d : Json) : Json :=
  (dictLookup fs k).getD d

/-- Python `a or b` on JSON values. -/
def jsonOr (a b : Json) : Json :=
  if jsonTruthy a then a else b

/-- `_norm(v)` on a JSON value: falsy values collapse to `""`; a truthy
non-string raises `AttributeError` (`.strip()` on it fails). -/
def jsonNorm (v : Json) : Except PyErr (List Char) :=
  if jsonTruthy v then
    match v with
    | .str s => .ok (_norm s.toList)
    | _ => .error .attributeError
  else .ok []

/-- `_norm(v) if v else None` on a JSON value (the `package`/`component`
treatment inside `_make_obj`). -/
def jsonOptNorm (v : Json) : Except PyErr (Option (List Char)) :=
  if jsonTruthy v then
    match v with
    | .str s => .ok (some (_norm s.toList))
    | _ => .error .attributeError
  else .ok none

/-- Python `str()` of a decoded JSON value (feeds only the traceability field
`raw`; composite renderings abbreviate Python `repr`). -/
def pyStr : Json → String
  | .null => "None"
  | .bool true => "True"
  | .bool false => "False"
  | .num n => toString n
  | .str s => s
  | .arr _ => "[...]"
  | .obj _ => "\x7b...\x7d"

/-- `for x in v`: the elements Python iteration yields — array elements, the
characters of a string (as one-character strings), the keys of a dict — or
`TypeError` for non-iterables. -/
def jsonIterate : Json → Except PyErr (List Json)
  | .arr xs => .ok xs
  | .str s => .ok (s.toList.map fun c => .str (String.mk [c]))
  | .obj fs => .ok (fs.map fun p => .str p.1)
  | _ => .error .typeError

/-- The body of the `for o0 in objects` loop in `load_objects_from_json` for
a dict element `o0`: field aliasing, the truthiness skip, then `_make_obj`
(whose `_norm` calls can raise, in field order). -/
def jsonElemObj (o0 : List (String × Json)) : Except PyErr (Option Obj) := do
  let obj_class := jsonGetD o0 "obj_class" (.str "R3TR")
  let obj_type := jsonOr (jsonGetD o0 "obj_type" .null) (jsonOr (jsonGetD o0 "object_type" .null) (.str ""))
  let obj_name := jsonOr (jsonGetD o0 "obj_name" .null) (jsonOr (jsonGetD o0 "object_name" .null) (.str ""))
  let package := jsonGetD o0 "package" .null
  let component := jsonGetD o0 "component" .null
  let raw := pyStr (jsonGetD o0 "raw" (.str ""))
  if !jsonTruthy obj_type || !jsonTruthy obj_name then
    return none
  else
    let c ← jsonNorm obj_class
    let t ← jsonNorm obj_type
    let n ← jsonNorm obj_name
    let p ← jsonOptNorm package
    let cp ← jsonOptNorm component
    return some (_make_obj c t n raw.toList p cp)

/-- The deduplicating loop of `load_objects_from_json` over the elements of
`objects`; non-dict elements are skipped by the `isinstance` check. -/
def jsonBuild : List Json → List (String × Obj) → Except PyErr (List (String × Obj))
  | [], d => .ok d
  | x :: t, d =>
    match x with
    | .obj fs =>
      match jsonElemObj fs with
      | .error e => .error e
      | .ok none => jsonBuild t d
      | .ok (some o) => jsonBuild t (dictInsert d o.normalized_key o)
    | _ => jsonBuild t d

/-- The input to JSON mode, partitioned by what `json.loads` does with the
raw bytes: falsy bytes (the early return), bytes on which `json.loads`
raises, or a decoded value. -/
inductive JsonInput where
  | empty
  | undecodable
  | decoded (j : Json)

/-- `load_objects_from_json` from parser.py.  For a decoded non-dict —
including a bare array — `data.get("objects", ...)` raises
`AttributeError` before the `isinstance(data, list)` default can help. -/
def load_objects_from_json : JsonInput → Except PyErr (List Obj)
  | .empty => .ok []
  | .undecodable => .error .jsonDecodeError
  | .decoded j =>
    match j with
    | .obj fs =>
      match jsonIterate (jsonGetD fs "objects" (.arr [])) with
      | .error e => .error e
      | .ok xs => (jsonBuild xs []).map dictValues
    | _ => .error .attributeError

/-- The objects produced element by element on the success path of
`load_objects_from_json`, before deduplication. -/
def jsonRecords (xs : List Json) : List Obj :=
  xs.filterMap fun x =>
    match x with
    | .obj fs =>
      match jsonElemObj fs with
      | .ok (some o) => some o
      | _ => none
    | _ => none

/-! ## mapping.py

`_match_any` uses `fnmatch.fnmatch`, i.e. shell-glob matching with `*`, `?`
and `[...]` character classes (`[!...]` negation, `a-b` ranges, a leading
`]` literal, an unclosed `[` literal; an inverted range matches nothing).
The pattern is compiled to a token list first, then matched against the
whole value. -/

/-- One member of a glob character class. -/
inductive ClassItem where
  | single (c : Char)
  | range (lo hi : Char)
deriving DecidableEq, Repr

/-- One compiled glob token. -/
inductive GlobTok where
  | star
  | qmark
  | lit (c : Char)
  | cls (neg : Bool) (items : List ClassItem)
deriving DecidableEq, Repr

/-- Split at the first `]`, returning the chars before it and those after. -/
def splitClose : List Char → Option (List Char × List Char)
  | [] => none
  | c :: t =>
    if c = ']' then some ([], t)
    else (splitClose t).map fun p => (c :: p.1, p.2)

theorem splitClose_length :
    ∀ {cs b r : List Char}, splitClose cs = some (b, r) → r.length < cs.length := by
  intro cs
  induction cs with
  | nil => intro b r h; simp [splitClose] at h
  | cons c t ih =>
    intro b r h
    simp only [splitClose] at h
    split at h
    · simp only [Option.some.injEq, Prod.mk.injEq] at h
      obtain ⟨-, h2⟩ := h
      subst h2
      simp
    · rw [Option.map_eq_some'] at h
      obtain ⟨⟨b', r'⟩, hbr, heq⟩ := h
      simp only [Prod.mk.injEq] at heq
      obtain ⟨-, h2⟩ := heq
      subst h2
      exact Nat.lt_succ_of_lt (ih hbr)

/-- Extract the body of a character class after the opening `[`: an optional
leading `!` negates; a `]` immediately after (`[]` or `[!]`) is part of the
body; `none` when there is no closing `]` (the `[` is then a literal). -/
def splitClassBody (cs : List Char) : Option (Bool × List Char × List Char) :=
  match cs with
  | '!' :: ']' :: t2 => (splitClose t2).map fun p => (true, ']' :: p.1, p.2)
  | '!' :: t => (splitClose t).map fun p => (true, p.1, p.2)
  | ']' :: t2 => (splitClose t2).map fun p => (false, ']' :: p.1, p.2)
  | _ => (splitClose cs).map fun p => (false, p.1, p.2)

theorem splitClassBody_length {cs : List Char} {n : Bool} {b r : List Char}
    (h : splitClassBody cs = some (n, b, r)) : r.length < cs.length := by
  unfold splitClassBody at h
  split at h
  all_goals
    rw [Option.map_eq_some'] at h
    obtain ⟨⟨x, y⟩, hx, hy⟩ := h
    have hlen := splitClose_length hx
    simp only [Prod.mk.injEq] at hy
    obtain ⟨-, -, hr⟩ := hy
    subst hr
    try simp only [List.length_cons]
    omega

/-- Parse a class body into members: `a-b` forms a range (a trailing `-` is a
literal). -/
def parseItems : List Char → List ClassItem
  | a :: '-' :: b :: rest => .range a b :: parseItems rest
  | a :: rest => .single a :: parseItems rest
  | [] => []

/-- Compile a glob pattern into tokens. -/
def compileGlob (cs : List Char) : List GlobTok :=
  match cs with
  | [] => []
  | '*' :: p => .star :: compileGlob p
  | '?' :: p => .qmark :: compileGlob p
  | '[' :: p =>
    match h : splitClassBody p with
    | some (neg, body, rest) => .cls neg (parseItems body) :: compileGlob rest
    | none => .lit '[' :: compileGlob p
  | c :: p => .lit c :: compileGlob p
termination_by cs.length
decreasing_by
  all_goals simp_wf
  all_goals first
  | omega
  | (have hh := splitClassBody_length h; omega)

/-- Membership of a character in a class member. -/
def classMatch (c : Char) : ClassItem → Bool
  | .single a => c = a
  | .range a b => decide (a ≤ c) && decide (c ≤ b)

/-- Match compiled glob tokens against a whole string. -/
def matchToks : List GlobTok → List Char → Bool
  | [], [] => true
  | [], _ :: _ => false
  | .star :: p, s =>
    matchToks p s ||
      (match s with
       | [] => false
       | _ :: t => matchToks (.star :: p) t)
  | .qmark :: p, s =>
    match s with
    | [] => false
    | _ :: t => matchToks p t
  | .lit c :: p, s =>
    match s with
    | [] => false
    | d :: t => c = d && matchToks p t
  | .cls neg items :: p, s =>
    match s with
    | [] => false
    | c :: t => (neg != items.any (classMatch c)) && matchToks p t
termination_by toks s => toks.length + s.length
decreasing_by all_goals simp_wf <;> omega

/-- `fnmatch.fnmatch(name, pat)` (the case normalization inside `fnmatch` is
immaterial: both sides are upper-cased by the caller). -/
def fnmatchB (name pat : String) : Bool :=
  matchToks (compileGlob pat.toList) name.toList

/-- `_match_any` from mapping.py. -/
def _match_any (patterns : List String) (value : String) : Bool :=
  if patterns.isEmpty then false
  else patterns.any fun pat => fnmatchB (pyUpper value) (pyUpper pat)

/-- One entry of the app catalog, restricted to the fields
`map_objects_to_apps` reads.  A missing JSON list field and the `or []`
normalization both yield `[]`; a JSON-null `display_name` is modelled as
missing. -/
structure AppEntry where
  app_id : Option String
  display_name : Option String
  criticality : Option Int
  tags : List String
  packages : List String
  namespaces : List String
  object_types : List String
deriving DecidableEq, Repr

/-- A per-application impact summary. -/
structure ImpactedApp where
  app_id : Option String
  display_name : Option String
  impact_score : ℚ
  matched_objects : Nat
  top_objects : List String
  tags : List String
  criticality : Int
deriving DecidableEq, Repr

/-- The per-object inclusion test inside `map_objects_to_apps`:
`type_ok and (ns_ok or pkg_ok)` where each `_ok` is
`not <patterns> or <match>`. -/
def objIncluded (e : AppEntry) (o : Obj) : Bool :=
  let otype := pyUpper o.obj_type
  let oname := pyUpper o.obj_name
  let opkg := pyUpper (o.package.getD "")
  let type_ok := e.object_types.isEmpty || (e.object_types.map pyUpper).contains otype
  let ns_ok := e.namespaces.isEmpty || _match_any e.namespaces oname
  let pkg_ok := e.packages.isEmpty || _match_any e.packages opkg
  type_ok && (ns_ok || pkg_ok)

/-- The matched subset of the change's objects for one catalog entry. -/
def matchedOf (objects : List Obj) (e : AppEntry) : List Obj :=
  objects.filter (objIncluded e)

/-- The `ImpactedApp` built for one catalog entry, or nothing when the entry
matched no object. -/
def entryRecord (objects : List Obj) (e : AppEntry) : Option ImpactedApp :=
  let matched := matchedOf objects e
  if matched.isEmpty then none
  else some
    { app_id := e.app_id
      display_name :=
        match e.display_name with
        | some d => some d
        | none => e.app_id
      impact_score := min 1 ((matched.length : ℚ) / ((max 1 objects.length : Nat) : ℚ))
      matched_objects := matched.length
      top_objects := (matched.take 10).map (·.normalized_key)
      tags := e.tags
      criticality := e.criticality.getD 3 }

/-- The Python sort key `(impact_score, criticality)` with its lexicographic
tuple comparison. -/
def impactKeyLe (p q : ℚ × Int) : Prop :=
  p.1 < q.1 ∨ (p.1 = q.1 ∧ p.2 ≤ q.2)

instance (p q : ℚ × Int) : Decidable (impactKeyLe p q) := by
  unfold impactKeyLe; infer_instance

/-- Comparator realizing `results.sort(key=..., reverse=True)`: a stable
descending sort is a stable merge sort with the reversed key comparison. -/
def impactLe (a b : ImpactedApp) : Bool :=
  decide (impactKeyLe (b.impact_score, b.criticality) (a.impact_score, a.criticality))

/-- `map_objects_to_apps` from mapping.py. -/
def map_objects_to_apps (objects : List Obj) (apps : List AppEntry) : List ImpactedApp :=
  (apps.filterMap (entryRecord objects)).mergeSort impactLe

/-! ## scoring.py

Python floats are modelled as rationals (`scale = 1.25` is `5/4`, the
critical-app multiplier `1.3` is `13/10`); `datetime.now(APP_TZ).isoformat()`
is passed in as the opaque string `now`; the `db.find_overlaps` result is
passed in explicitly (the store is the external collaborator boundary). -/

/-- `BASE_POINTS` from scoring.py. -/
def BASE_POINTS : List (String × Int) :=
  [("PROG", 6), ("REPS", 6), ("REPT", 6),
   ("CMOD", 8), ("SMOD", 8), ("ENHO", 9), ("ENHS", 9), ("SPOT", 9),
   ("CLAS", 7), ("INTF", 7), ("FUGR", 8), ("FUNC", 8),
   ("TABL", 10), ("VIEW", 9), ("DDLS", 9), ("DTEL", 5), ("DOMA", 5), ("TTYP", 5)]

/-- `BASE_POINTS.get(otype, 3)`. -/
def basePoints (otype : String) : Int :=
  (dictLookup BASE_POINTS otype).getD 3

/-- `_risk_level` from scoring.py. -/
def _risk_level (score : Int) : String :=
  if score ≥ 75 then "High"
  else if score ≥ 40 then "Medium"
  else "Low"

/-- Python `round()` to an integer: round half to even. -/
def pyRound (q : ℚ) : Int :=
  let f := ⌊q⌋
  let frac := q - f
  if frac < 1/2 then f
  else if 1/2 < frac then f + 1
  else if f % 2 = 0 then f else f + 1

/-- One record of the current change's overlap with one prior change. -/
structure OverlapRec where
  other_change_id : String
  shared_object_count : Nat
  shared_objects : List String
deriving DecidableEq, Repr

/-- One per-object risk entry. -/
structure ObjectRisk where
  normalized_key : String
  risk_points : Int
  reasons : List String
deriving DecidableEq, Repr

/-- The `summary` block of a Findings value. -/
structure Summary where
  risk_score : Int
  risk_level : String
  objects_total : Nat
  apps_impacted : Nat
  overlaps_found : Nat
deriving DecidableEq, Repr

/-- The aggregate result of one analysis (`findings` in scoring.py). -/
structure Findings where
  navica_version : String
  change_id : String
  generated_at : String
  summary : Summary
  impacted_apps : List ImpactedApp
  overlaps : List OverlapRec
  object_risks : List ObjectRisk
  notes : List String
  tester_scope_suggestions : List String
deriving DecidableEq, Repr

/-- `overlap_counts.get(nk, 0)`: the number of shared-object entries across
all overlap records equal to `nk` (the dict in the source increments once
per occurrence). -/
def overlapCount (overlaps : List OverlapRec) (nk : String) : Nat :=
  ((overlaps.map (·.shared_objects)).flatten.count nk)

/-- `critical_object_set`: `top_objects` of the impacted apps with
criticality at least 4. -/
def criticalKeys (apps : List ImpactedApp) : List String :=
  ((apps.filter fun a => decide (4 ≤ a.criticality)).map (·.top_objects)).flatten

/-- `name.startswith(("Z", "Y"))` (the customer-namespace prefix test). -/
def startsZY (s : String) : Bool :=
  match s.data with
  | 'Z' :: _ => true
  | 'Y' :: _ => true
  | _ => false

/-- The raw (pre-rounding) points of one object: base points, the 1.3
critical-app multiplier, the overlap bonus, the wide-impact heuristic. -/
def rawPoints (apps : List ImpactedApp) (overlaps : List OverlapRec) (o : Obj) : ℚ :=
  let otype := pyUpper o.obj_type
  let p1 : ℚ := (basePoints otype : ℚ)
  let p2 := if (criticalKeys apps).contains o.normalized_key then p1 * (13/10) else p1
  let n := overlapCount overlaps o.normalized_key
  let p3 :=
    if n = 1 then p2 + 2
    else if n = 2 then p2 + 5
    else if 3 ≤ n then p2 + 9
    else p2
  if 3 < apps.length && startsZY (pyUpper o.obj_name) then
    p3 + 2
  else p3

/-- The `reasons` list accompanying one object's risk points. -/
def objReasons (apps : List ImpactedApp) (overlaps : List OverlapRec) (o : Obj) : List String :=
  let otype := pyUpper o.obj_type
  let r1 := ["type:" ++ (if otype = "" then "UNK" else otype)]
  let r2 := r1 ++ (if (criticalKeys apps).contains o.normalized_key then ["matched_critical_app"] else [])
  let n := overlapCount overlaps o.normalized_key
  let r3 := r2 ++ (if 1 ≤ n then ["shared_across_changes(" ++ toString n ++ ")"] else [])
  r3 ++
    (if 3 < apps.length && startsZY (pyUpper o.obj_name) then
      ["wide_app_impact_hint"]
    else [])

/-- The `ObjectRisk` built for one object. -/
def objectRisk (apps : List ImpactedApp) (overlaps : List OverlapRec) (o : Obj) : ObjectRisk :=
  { normalized_key := o.normalized_key
    risk_points := pyRound (rawPoints apps overlaps o)
    reasons := objReasons apps overlaps o }

/-- Comparator for `sorted(object_risks, key=risk_points, reverse=True)`. -/
def riskLe (a b : ObjectRisk) : Bool :=
  decide (b.risk_points ≤ a.risk_points)

/-- `score_change` from scoring.py, with the store's `find_overlaps` answer
passed in as `overlaps` and the generation timestamp as `now`. -/
def score_change (change_id : String) (objects : List Obj)
    (impacted_apps : List ImpactedApp) (overlaps : List OverlapRec)
    (now : String) : Findings :=
  let overlaps_found := (overlaps.filter fun o => decide (0 < o.shared_object_count)).length
  let object_risks := objects.map (objectRisk impacted_apps overlaps)
  let total_points : ℚ := (objects.map (rawPoints impacted_apps overlaps)).sum
  let score : Int :=
    min 100 (pyRound ((total_points / ((max 1 objects.length : Nat) : ℚ)) * (5/4) * 10))
  { navica_version := "0.1"
    change_id := change_id
    generated_at := now
    summary :=
      { risk_score := score
        risk_level := _risk_level score
        objects_total := objects.length
        apps_impacted := impacted_apps.length
        overlaps_found := overlaps_found }
    impacted_apps := impacted_apps
    overlaps := overlaps
    object_risks := object_risks.mergeSort riskLe
    notes := []
    tester_scope_suggestions :=
      ["Use the overlap table to avoid re-testing scenarios already covered by another change.",
       "Prioritize tests around user exits/enhancements and DDIC changes to keep production issues boring to fix."] }

/-! ## db.py (`NavicaDB.find_overlaps`)

The sqlite table scan becomes a list of rows.  `datetime` is abstracted to
integers at day granularity: `parseIso` stands for `datetime.fromisoformat`,
returning `none` when parsing raises — or when the parsed value is naive and
the comparison with the aware cutoff raises — in either case the enclosing
`except` handler skips the row.  A `findings_json` of `none` stands for a
`NULL` or undecodable stored text (`json.loads` raises). -/

/-- One row of the `changes` table. -/
structure HistRow where
  change_id : String
  generated_at : Option String
  findings_json : Option Json

/-- The current change's key set:
`set(o.get("normalized_key") for o in objects if o.get("normalized_key"))`
(deduplicated; order is immaterial because the intersection is sorted). -/
def objKeySet (objects : List Obj) : List String :=
  ((objects.map (·.normalized_key)).filter fun k => k ≠ "").dedup

/-- Is this decoded value unhashable in Python (a list or a dict)? Adding
one to a set raises `TypeError`. -/
def jsonUnhashable : Json → Bool
  | .arr _ => true
  | .obj _ => true
  | _ => false

/-- `[r.get("normalized_key") for r in elems]`: the key value of each
element, raising `AttributeError` at the first non-dict element. -/
def getKeysList : List Json → Except PyErr (List Json)
  | [] => .ok []
  | r :: t =>
    match r with
    | .obj fs =>
      match getKeysList t with
      | .error e => .error e
      | .ok vs => .ok (jsonGetD fs "normalized_key" .null :: vs)
    | _ => .error PyErr.attributeError

/-- `set(r.get("normalized_key") for r in v if r.get("normalized_key"))`:
iterate `v`, read the key of each element (`AttributeError` on a non-dict),
keep truthy values, then hash them all (`TypeError` on an unhashable one). -/
def risksKeys (v : Json) : Except PyErr (List Json) := do
  let elems ← jsonIterate v
  let vals ← getKeysList elems
  let kept := vals.filter jsonTruthy
  if kept.any jsonUnhashable then .error .typeError else .ok kept

/-- `set(o.get("normalized_key") for o in v)`: as `risksKeys` but without
the truthiness filter (the fallback comprehension has none). -/
def objsKeys (v : Json) : Except PyErr (List Json) := do
  let elems ← jsonIterate v
  let vals ← getKeysList elems
  if vals.any jsonUnhashable then .error .typeError else .ok vals

/-- Comparator for `sorted(...)` on strings: Python compares code points
lexicographically, which is the lexicographic order on the char lists. -/
def strLe (a b : String) : Bool :=
  decide (a.toList ≤ b.toList)

/-- `sorted(list(obj_set.intersection(other_objs)))`: the members of the
current change's key set that the stored change also has, sorted. -/
def sharedList (objSet : List String) (keys : List Json) : List String :=
  ((objSet.filter fun k => keys.contains (.str k)).mergeSort strLe)

/-- The keys a stored findings dict contributes: its `object_risks` entries,
or — when those yield nothing and an `objects` field is truthy — the raw
`objects` entries. -/
def storedKeys (fs : List (String × Json)) : Except PyErr (List Json) := do
  let ks ← risksKeys (jsonGetD fs "object_risks" (.arr []))
  if ks.isEmpty && jsonTruthy (jsonGetD fs "objects" .null) then
    objsKeys (jsonGetD fs "objects" (.arr []))
  else
    .ok ks

/-- The part of the row loop after the window check: decode the stored
findings, extract its keys, intersect with the current change.  `none` both
when the row is dropped (no shared objects) and when a step raises into the
`except Exception: continue` handler. -/
def processRowBody (objSet : List String) (row : HistRow) : Option OverlapRec :=
  match row.findings_json with
  | none => none
  | some j =>
    match j with
    | .obj fs =>
      match storedKeys fs with
      | .error _ => none
      | .ok keys =>
        let shared := sharedList objSet keys
        if shared.isEmpty then none
        else some
          { other_change_id := row.change_id
            shared_object_count := shared.length
            shared_objects := shared.take 200 }
    | _ => none

/-- The `try` body of the row loop in `find_overlaps`: the recency window
check (skipping also when the timestamp fails to parse, per the `except`
handler), then `processRowBody`. -/
def processRow (parseIso : String → Option Int) (cutoff : Int)
    (objSet : List String) (row : HistRow) : Option OverlapRec :=
  match row.generated_at with
  | none => processRowBody objSet row
  | some s =>
    if s = "" then processRowBody objSet row
    else
      match parseIso s with
      | none => none
      | some t => if t < cutoff then none else processRowBody objSet row

/-- Comparator for `overlaps.sort(key=shared_object_count, reverse=True)`. -/
def overlapLe (a b : OverlapRec) : Bool :=
  decide (b.shared_object_count ≤ a.shared_object_count)

/-- `NavicaDB.find_overlaps`: scan all rows with a different `change_id`,
process each (skipping malformed or out-of-window rows and rows sharing no
object), sort by shared count descending, return the top 25. -/
def find_overlaps (parseIso : String → Option Int) (now : Int)
    (change_id : String) (objects : List Obj) (window_days : Int)
    (table : List HistRow) : List OverlapRec :=
  let objSet := objKeySet objects
  let cutoff := now - window_days
  let rows := table.filter fun r => r.change_id ≠ change_id
  ((rows.filterMap (processRow parseIso cutoff objSet)).mergeSort overlapLe).take 25

/-! ## Derived definitions used in the claim statements -/

/-- The record sequence the JSON loader would iterate for a decoded value
(empty when iteration raises or the value is not a dict). -/
def jsonModeRecords (j : Json) : List Obj :=
  match j with
  | .obj fs =>
    match jsonIterate (jsonGetD fs "objects" (.arr [])) with
    | .ok xs => jsonRecords xs
    | .error _ => []
  | _ => []

/-- The inclusion condition exactly as the specification words it: the type
constraint AND, whenever at least one of the namespace/package pattern sets
is non-empty, at least one actual pattern match (an empty set contributes no
match of its own). -/
def specC1Included (e : AppEntry) (o : Obj) : Bool :=
  (e.object_types.isEmpty || (e.object_types.map pyUpper).contains (pyUpper o.obj_type)) &&
  ((e.namespaces.isEmpty && e.packages.isEmpty) ||
    (_match_any e.namespaces (pyUpper o.obj_name) ||
     _match_any e.packages (pyUpper (o.package.getD ""))))

/-- The amended inclusion condition: the type constraint AND (namespace set
empty OR a namespace pattern matches the name OR package set empty OR a
package pattern matches the package) — an actual glob match is forced only
when BOTH pattern sets are non-empty. -/
def amendedC1Included (e : AppEntry) (o : Obj) : Bool :=
  (e.object_types.isEmpty || (e.object_types.map pyUpper).contains (pyUpper o.obj_type)) &&
  (e.namespaces.isEmpty || _match_any e.namespaces (pyUpper o.obj_name) ||
   e.packages.isEmpty || _match_any e.packages (pyUpper (o.package.getD "")))

/-- A catalog entry matching package `ZPKG` only (no type or namespace
constraint). -/
def entryZPKG : AppEntry :=
  ⟨some "APP1", none, none, [], ["ZPKG"], [], []⟩

/-- A program object in no package. -/
def objNoPkg : Obj :=
  _make_obj "R3TR".toList "PROG".toList "ZX".toList "R3TR PROG ZX".toList none none

/-- A catalog entry constraining only the object type. -/
def entryTypeOnly : AppEntry :=
  ⟨some "A1", none, none, [], [], [], ["TABL"]⟩

/-- A table object. -/
def objTabl : Obj :=
  _make_obj "R3TR".toList "TABL".toList "ZT1".toList "R3TR TABL ZT1".toList none none

/-- 201 pairwise-distinct non-empty keys. -/
def bigKeys : List String :=
  (List.range 201).map fun i => String.mk (List.replicate (i + 1) 'a')

/-- A current change with 201 objects carrying those keys. -/
def bigObjects : List Obj :=
  bigKeys.map fun k =>
    { obj_class := "", obj_type := "", obj_name := "", subtype := none,
      package := none, component := none, raw := "", normalized_key := k }

/-- A stored change whose `object_risks` carry the same 201 keys. -/
def bigRow : HistRow :=
  { change_id := "OLD", generated_at := none,
    findings_json := some (Json.obj [("object_risks",
      Json.arr (bigKeys.map fun k => Json.obj [("normalized_key", Json.str k)]))]) }

/-! ## Lemmas about the dictionary model -/

theorem dictLookup_insert {α : Type} (d : List (String × α)) (k k' : String) (v : α) :
    dictLookup (dictInsert d k v) k' = if k' = k then some v else dictLookup d k' := by
  induction d with
  | nil =>
    by_cases h : k' = k
    · simp [dictInsert, dictLookup, h]
    · have h2 : ¬ (k = k') := fun hh => h hh.symm
      simp [dictInsert, dictLookup, h, h2]
  | cons p rest ih =>
    obtain ⟨k0, v0⟩ := p
    by_cases h0 : k0 = k
    · subst h0
      by_cases h : k' = k0
      · simp [dictInsert, dictLookup, h]
      · have h2 : ¬ (k0 = k') := fun hh => h hh.symm
        simp [dictInsert, dictLookup, h, h2]
    · by_cases h : k' = k0
      · subst h
        simp [dictInsert, dictLookup, h0]
      · have h2 : ¬ (k0 = k') := fun hh => h hh.symm
        simp [dictInsert, dictLookup, h0, h, h2, ih]

theorem dictKeys_insert {α : Type} (d : List (String × α)) (k : String) (v : α) :
    dictKeys (dictInsert d k v) =
      if k ∈ dictKeys d then dictKeys d else dictKeys d ++ [k] := by
  induction d with
  | nil => simp [dictInsert, dictKeys]
  | cons p rest ih =>
    obtain ⟨k0, v0⟩ := p
    by_cases h0 : k0 = k
    · subst h0
      simp [dictInsert, dictKeys]
    · have h0' : ¬ (k = k0) := fun hh => h0 hh.symm
      simp only [dictInsert, if_neg h0, dictKeys, List.map_cons] at ih ⊢
      rw [ih]
      by_cases hmem : k ∈ List.map Prod.fst rest
      · simp [hmem, h0']
      · simp [hmem, h0']

theorem dictKeys_insert_nodup {α : Type} {d : List (String × α)}
    (h : (dictKeys d).Nodup) (k : String) (v : α) :
    (dictKeys (dictInsert d k v)).Nodup := by
  rw [dictKeys_insert]
  by_cases hmem : k ∈ dictKeys d
  · simpa [hmem] using h
  · simp only [hmem, if_false]
    simpa [List.nodup_append] using ⟨h, hmem⟩

theorem dictInsert_forall {α : Type} {P : String × α → Prop} {d : List (String × α)}
    {k : String} {v : α} (hd : ∀ p ∈ d, P p) (hkv : P (k, v)) :
    ∀ p ∈ dictInsert d k v, P p := by
  induction d with
  | nil => simpa [dictInsert] using hkv
  | cons q rest ih =>
    obtain ⟨k0, v0⟩ := q
    by_cases h0 : k0 = k
    · subst h0
      simp only [dictInsert, if_pos rfl]
      intro p hp
      rcases List.mem_cons.mp hp with hp | hp
      · subst hp; exact hkv
      · exact hd p (List.mem_cons_of_mem _ hp)
    · simp only [dictInsert, if_neg h0]
      intro p hp
      rcases List.mem_cons.mp hp with hp | hp
      · subst hp; exact hd _ (List.mem_cons_self _ _)
      · exact ih (fun q hq => hd q (List.mem_cons_of_mem _ hq)) p hp

theorem insertAll_keys_nodup {α : Type} :
    ∀ (ps : List (String × α)) (d : List (String × α)),
      (dictKeys d).Nodup → (dictKeys (insertAll d ps)).Nodup := by
  intro ps
  induction ps with
  | nil => intro d h; simpa [insertAll] using h
  | cons p t ih =>
    intro d h
    simpa [insertAll] using ih (dictInsert d p.1 p.2) (dictKeys_insert_nodup h p.1 p.2)

theorem insertAll_forall {α : Type} {P : String × α → Prop} :
    ∀ (ps : List (String × α)) (d : List (String × α)),
      (∀ p ∈ d, P p) → (∀ p ∈ ps, P p) → ∀ p ∈ insertAll d ps, P p := by
  intro ps
  induction ps with
  | nil =>
    intro d hd _ p hp
    exact hd p (by simpa [insertAll] using hp)
  | cons q t ih =>
    intro d hd hps p hp
    simp only [insertAll, List.foldl_cons] at hp
    exact ih (dictInsert d q.1 q.2)
      (dictInsert_forall hd (by simpa using hps q (List.mem_cons_self _ _)))
      (fun r hr => hps r (List.mem_cons_of_mem _ hr)) p hp

theorem dictLookup_insertAll {α : Type} :
    ∀ (ps : List (String × α)) (d : List (String × α)) (k : String),
      dictLookup (insertAll d ps) k =
        match ps.reverse.find? (fun p => decide (p.1 = k)) with
        | some p => some p.2
        | none => dictLookup d k := by
  intro ps
  induction ps with
  | nil => intro d k; simp [insertAll]
  | cons q t ih =>
    intro d k
    simp only [insertAll, List.foldl_cons, List.reverse_cons]
    rw [show (t.foldl (fun d p => dictInsert d p.1 p.2) (dictInsert d q.1 q.2)) =
          insertAll (dictInsert d q.1 q.2) t from rfl]
    rw [ih]
    rw [List.find?_append]
    cases hfind : t.reverse.find? (fun p => decide (p.1 = k)) with
    | some p => simp
    | none =>
      simp only [Option.none_orElse]
      rw [dictLookup_insert]
      by_cases hk : k = q.1
      · simp [List.find?, hk]
      · have hk' : ¬ (q.1 = k) := fun hh => hk hh.symm
        simp [List.find?, hk, hk']

theorem dictLookup_eq_some_iff {α : Type} :
    ∀ {d : List (String × α)}, (dictKeys d).Nodup → ∀ {k : String} {v : α},
      (dictLookup d k = some v ↔ (k, v) ∈ d) := by
  intro d
  induction d with
  | nil => intro _ k v; simp [dictLookup]
  | cons p rest ih =>
    intro hnd k v
    obtain ⟨k0, v0⟩ := p
    simp only [dictKeys, List.map_cons, List.nodup_cons] at hnd
    obtain ⟨hk0, hrest⟩ := hnd
    by_cases h : k0 = k
    · subst h
      constructor
      · intro hl
        have hv : v0 = v := by simpa [dictLookup] using hl
        subst hv
        exact List.mem_cons_self _ _
      · intro hmem
        rcases List.mem_cons.mp hmem with heq | hmem
        · cases heq
          simp [dictLookup]
        · exact absurd (List.mem_map_of_mem Prod.fst hmem) hk0
    · simp only [dictLookup, if_neg h, List.mem_cons, Prod.mk.injEq]
      rw [ih hrest]
      constructor
      · exact Or.inr
      · rintro (⟨rfl, -⟩ | hmem)
        · exact absurd rfl h
        · exact hmem

theorem mem_dictValues_iff {α : Type} {d : List (String × α)}
    (hnd : (dictKeys d).Nodup) (v : α) :
    v ∈ dictValues d ↔ ∃ k, dictLookup d k = some v := by
  constructor
  · intro hv
    obtain ⟨⟨k, v'⟩, hp, hv'⟩ := List.mem_map.mp hv
    cases hv'
    exact ⟨k, (dictLookup_eq_some_iff hnd).mpr hp⟩
  · rintro ⟨k, hk⟩
    exact List.mem_map.mpr ⟨(k, v), (dictLookup_eq_some_iff hnd).mp hk, rfl⟩

/-! ## Lemmas about `dedupByKey` -/

theorem dedupPairs_forall (records : List Obj) :
    ∀ p ∈ (records.map fun o => (o.normalized_key, o)),
      (fun p : String × Obj => p.2.normalized_key = p.1) p := by
  intro p hp
  obtain ⟨o, -, rfl⟩ := List.mem_map.mp hp
  rfl

theorem dedupDict_forall (records : List Obj) :
    ∀ p ∈ insertAll [] (records.map fun o => (o.normalized_key, o)),
      p.2.normalized_key = p.1 :=
  insertAll_forall _ [] (by simp) (dedupPairs_forall records)

theorem dedupDict_keys_nodup (records : List Obj) :
    (dictKeys (insertAll [] (records.map fun o => (o.normalized_key, o)))).Nodup :=
  insertAll_keys_nodup _ [] (by simp [dictKeys])

theorem dedupByKey_keys_nodup (records : List Obj) :
    ((dedupByKey records).map (·.normalized_key)).Nodup := by
  unfold dedupByKey
  have h1 : (dictValues (insertAll [] (records.map fun o => (o.normalized_key, o)))).map
      (·.normalized_key) =
      dictKeys (insertAll [] (records.map fun o => (o.normalized_key, o))) := by
    unfold dictValues dictKeys
    rw [List.map_map]
    exact List.map_congr_left fun p hp => dedupDict_forall records p hp
  rw [h1]
  exact dedupDict_keys_nodup records

theorem dedupLookup (records : List Obj) (k : String) :
    dictLookup (insertAll [] (records.map fun o => (o.normalized_key, o))) k =
      records.reverse.find? (fun r => decide (r.normalized_key = k)) := by
  rw [dictLookup_insertAll]
  rw [← List.map_reverse]
  rw [List.find?_map]
  have hcomp : ((fun p : String × Obj => decide (p.1 = k)) ∘ fun o : Obj => (o.normalized_key, o)) =
      fun r : Obj => decide (r.normalized_key = k) := rfl
  rw [hcomp]
  cases hf : records.reverse.find? (fun r => decide (r.normalized_key = k)) with
  | none => simp [dictLookup]
  | some r => simp

theorem mem_dedupByKey_iff (records : List Obj) (o : Obj) :
    o ∈ dedupByKey records ↔
      records.reverse.find? (fun r => decide (r.normalized_key = o.normalized_key)) = some o := by
  unfold dedupByKey
  rw [mem_dictValues_iff (dedupDict_keys_nodup records)]
  constructor
  · rintro ⟨k, hk⟩
    rw [dedupLookup] at hk
    have hp := List.find?_some hk
    have hkey : o.normalized_key = k := by simpa using hp
    subst hkey
    exact hk
  · intro h
    exact ⟨o.normalized_key, by rw [dedupLookup]; exact h⟩

/-! ## Blank input and the text parser -/

theorem stripChars_eq_nil_iff {cs : List Char} :
    stripChars cs = [] ↔ ∀ c ∈ cs, isPySpace c := by
  unfold stripChars
  rw [List.reverse_eq_nil_iff, List.dropWhile_eq_nil_iff]
  constructor
  · intro h c hc
    have hsplit : List.takeWhile isPySpace cs ++ List.dropWhile isPySpace cs = cs :=
      List.takeWhile_append_dropWhile isPySpace cs
    rw [← hsplit] at hc
    rcases List.mem_append.mp hc with h1 | h1
    · exact List.mem_takeWhile_imp h1
    · exact h c (List.mem_reverse.mpr h1)
  · intro h c hc
    exact h c (List.Sublist.mem (List.mem_reverse.mp hc) (List.dropWhile_sublist isPySpace))

set_option maxHeartbeats 1000000 in
theorem splitLinesGo_cons (c : Char) (t acc : List Char)
    (h : ∀ t2, c = '\r' → t = '\n' :: t2 → False) :
    splitLinesGo (c :: t) acc =
      if isLineBreak c then acc.reverse :: splitLinesGo t []
      else splitLinesGo t (c :: acc) := by
  rw [splitLinesGo.eq_def]
  split
  · rename_i heq
    simp at heq
  · rename_i t2 heq
    obtain ⟨h1, h2⟩ := List.cons_eq_cons.mp heq
    exact (h t2 h1 h2).elim
  · rename_i c' t' hne heq
    obtain ⟨h1, h2⟩ := List.cons_eq_cons.mp heq
    subst h1
    subst h2
    rfl

theorem splitLinesGo_mem_subset :
    ∀ (cs acc : List Char), ∀ l ∈ splitLinesGo cs acc, ∀ c ∈ l, c ∈ cs ∨ c ∈ acc := by
  intro cs acc
  induction cs, acc using splitLinesGo.induct with
  | case1 acc hacc =>
    intro l hl
    rw [splitLinesGo] at hl
    simp [hacc] at hl
  | case2 acc hacc =>
    intro l hl c hc
    rw [splitLinesGo] at hl
    simp [hacc] at hl
    subst hl
    exact Or.inr (List.mem_reverse.mp hc)
  | case3 t acc ih =>
    intro l hl c hc
    rw [splitLinesGo] at hl
    rcases List.mem_cons.mp hl with rfl | hl'
    · exact Or.inr (List.mem_reverse.mp hc)
    · rcases ih l hl' c hc with h1 | h1
      · exact Or.inl (List.mem_cons_of_mem _ (List.mem_cons_of_mem _ h1))
      · simp at h1
  | case4 c0 t acc hne hbr ih =>
    intro l hl c hc
    rw [splitLinesGo_cons c0 t acc hne, if_pos hbr] at hl
    rcases List.mem_cons.mp hl with rfl | hl'
    · exact Or.inr (List.mem_reverse.mp hc)
    · rcases ih l hl' c hc with h1 | h1
      · exact Or.inl (List.mem_cons_of_mem _ h1)
      · simp at h1
  | case5 c0 t acc hne hbr ih =>
    intro l hl c hc
    rw [splitLinesGo_cons c0 t acc hne, if_neg hbr] at hl
    rcases ih l hl c hc with h1 | h1
    · exact Or.inl (List.mem_cons_of_mem _ h1)
    · rcases List.mem_cons.mp h1 with rfl | h2
      · exact Or.inl (List.mem_cons_self _ _)
      · exact Or.inr h2

theorem parseLine_of_all_space {line : List Char}
    (h : ∀ c ∈ line, isPySpace c) : parseLine line = none := by
  unfold parseLine
  rw [stripChars_eq_nil_iff.mpr h]
  rfl

theorem textRecords_blank {text : String}
    (h : stripChars text.toList = []) : textRecords text = [] := by
  have hall : ∀ c ∈ text.toList, isPySpace c := stripChars_eq_nil_iff.mp h
  unfold textRecords pySplitLines
  rw [List.filterMap_eq_nil]
  intro l hl
  apply parseLine_of_all_space
  intro c hc
  rcases splitLinesGo_mem_subset text.toList [] l hl c hc with h1 | h1
  · exact hall c h1
  · simp at h1

theorem parse_abap_object_text_eq (text : String) :
    parse_abap_object_text text = dedupByKey (textRecords text) := by
  unfold parse_abap_object_text
  split
  · rename_i h
    rw [textRecords_blank (by simpa [List.isEmpty_iff] using h)]
    rfl
  · rfl

/-! ## The JSON loader's dict accumulation -/

theorem jsonBuild_ok :
    ∀ (xs : List Json) (d d' : List (String × Obj)),
      jsonBuild xs d = .ok d' →
      d' = insertAll d ((jsonRecords xs).map fun o => (o.normalized_key, o)) := by
  intro xs
  induction xs with
  | nil =>
    intro d d' h
    simp only [jsonBuild] at h
    cases h
    simp [jsonRecords, insertAll]
  | cons x t ih =>
    intro d d' h
    cases x with
    | obj fs =>
      simp only [jsonBuild] at h
      cases helem : jsonElemObj fs with
      | error e =>
        rw [helem] at h
        exact absurd h (by simp)
      | ok oo =>
        rw [helem] at h
        cases oo with
        | none =>
          rw [ih d d' h]
          simp only [jsonRecords, List.filterMap_cons, helem]
        | some o =>
          rw [ih _ d' h]
          simp only [jsonRecords, List.filterMap_cons, helem]
          simp [insertAll]
    | null =>
      simp only [jsonBuild] at h
      rw [ih d d' h]
      simp only [jsonRecords, List.filterMap_cons]
    | bool b =>
      simp only [jsonBuild] at h
      rw [ih d d' h]
      simp only [jsonRecords, List.filterMap_cons]
    | num n =>
      simp only [jsonBuild] at h
      rw [ih d d' h]
      simp only [jsonRecords, List.filterMap_cons]
    | str s =>
      simp only [jsonBuild] at h
      rw [ih d d' h]
      simp only [jsonRecords, List.filterMap_cons]
    | arr ys =>
      simp only [jsonBuild] at h
      rw [ih d d' h]
      simp only [jsonRecords, List.filterMap_cons]

/-! ## Claim C1 -/

/-- C1 counterexample: for a catalog entry whose only patterns are package
patterns (`packages = ["ZPKG"]`, `namespaces = []`, no type constraint) and
an object with no package, the code includes the object in the matched
subset (the empty namespace set makes `ns_ok` true), while the claim's
condition — some actual namespace or package glob match, since at least one
pattern set is non-empty — is false.  The claim's inclusion-iff-condition
therefore fails at this input. -/
theorem C1_counterexample :
    matchedOf [objNoPkg] entryZPKG = [objNoPkg] ∧
    specC1Included entryZPKG objNoPkg = false := by
  constructor
  · decide
  · have hglob : compileGlob ['Z', 'P', 'K', 'G'] =
        [.lit 'Z', .lit 'P', .lit 'K', .lit 'G'] := by
      simp [compileGlob]
    have h0 : upperChars "ZPKG".data = ['Z', 'P', 'K', 'G'] := by decide
    have h1 : _match_any ["ZPKG"] (pyUpper "") = false := by
      simp [_match_any, fnmatchB, pyUpper, h0, hglob, matchToks, upperChars]
    have h2 : ∀ v, _match_any [] v = false := fun v => rfl
    simp [specC1Included, entryZPKG, objNoPkg, _make_obj, _norm, h1, h2, upperChars, stripChars]

/-- C1 (amended): an object is in a catalog entry's matched subset exactly
when the type constraint is satisfied AND (the namespace pattern set is
empty, OR some namespace pattern glob-matches the name, OR the package
pattern set is empty, OR some package pattern glob-matches the package) —
i.e. an actual glob match is required only when both pattern sets are
non-empty; in particular, when both are empty the type constraint alone
determines inclusion. -/
theorem C1_amended_matched_iff (objects : List Obj) (e : AppEntry) (o : Obj) :
    (o ∈ matchedOf objects e ↔ o ∈ objects ∧ amendedC1Included e o = true) ∧
    (e.namespaces = [] → e.packages = [] →
      (o ∈ matchedOf objects e ↔ o ∈ objects ∧
        (e.object_types.isEmpty ||
          (e.object_types.map pyUpper).contains (pyUpper o.obj_type)) = true)) := by
  have hiff : objIncluded e o = amendedC1Included e o := by
    simp only [objIncluded, amendedC1Included]
    cases e.object_types.isEmpty <;>
      cases (e.object_types.map pyUpper).contains (pyUpper o.obj_type) <;>
      cases e.namespaces.isEmpty <;> cases e.packages.isEmpty <;>
      cases _match_any e.namespaces (pyUpper o.obj_name) <;>
      cases _match_any e.packages (pyUpper (o.package.getD "")) <;> rfl
  constructor
  · rw [matchedOf, List.mem_filter, hiff]
  · intro hns hpkg
    rw [matchedOf, List.mem_filter, hiff]
    simp [amendedC1Included, hns, hpkg]

/-! ## Claim C2 -/

/-- C2 counterexample: JSON mode raises on non-empty bytes that do not
decode as JSON (`json.loads` is not guarded), contradicting "never raises".
-/
theorem C2_counterexample :
    load_objects_from_json JsonInput.undecodable = Except.error PyErr.jsonDecodeError := rfl

/-- C2 (amended): the free-text mode returns a possibly-empty sequence and
never raises — empty, all-blank, or wholly unrecognized input yields the
empty sequence.  At the `DictReader`-row level, CSV mode yields the empty
sequence on empty input and on input whose rows all lack a resolvable type
or name (the `csv` tokenizer's own raise sites are outside this model, so
no never-raises property is asserted for CSV mode).  JSON mode yields the
empty sequence on empty input, raises a decode error on undecodable bytes,
and raises an attribute error on every decoded non-dict top level —
including a bare array. -/
theorem C2_amended :
    (parse_abap_object_text "" = []) ∧
    (∀ text : String, (∀ c ∈ text.toList, isPySpace c) → parse_abap_object_text text = []) ∧
    (∀ text : String, (∀ l ∈ pySplitLines text.toList, parseLine l = none) →
      parse_abap_object_text text = []) ∧
    (∀ dumps : CsvRow → String, load_objects_from_csv dumps [] = []) ∧
    (∀ (dumps : CsvRow → String) (rows : List CsvRow),
      (∀ r ∈ rows, rowToObj dumps r = none) → load_objects_from_csv dumps rows = []) ∧
    (load_objects_from_json JsonInput.empty = Except.ok []) ∧
    (load_objects_from_json JsonInput.undecodable = Except.error PyErr.jsonDecodeError) ∧
    (∀ j : Json, (∀ fs, j ≠ Json.obj fs) →
      load_objects_from_json (JsonInput.decoded j) = Except.error PyErr.attributeError) := by
  refine ⟨by decide, ?_, ?_, fun dumps => rfl, ?_, rfl, rfl, ?_⟩
  · intro text h
    unfold parse_abap_object_text
    rw [if_pos]
    simpa [List.isEmpty_iff] using stripChars_eq_nil_iff.mpr h
  · intro text h
    rw [parse_abap_object_text_eq]
    have : textRecords text = [] := by
      unfold textRecords pySplitLines
      rw [List.filterMap_eq_nil]
      exact h
    rw [this]
    rfl
  · intro dumps rows h
    unfold load_objects_from_csv
    have : csvRecords dumps rows = [] := by
      unfold csvRecords
      rw [List.filterMap_eq_nil]
      exact h
    rw [this]
    rfl
  · intro j hj
    cases j with
    | obj fs => exact absurd rfl (hj fs)
    | null => rfl
    | bool b => rfl
    | num n => rfl
    | str s => rfl
    | arr xs => rfl

/-- C2 witness: concrete instances of the amended claim's conditional parts —
an unrecognized text line and a CSV row with no resolvable name both give
the empty sequence, and a decoded bare array raises an attribute error. -/
theorem C2_amended_witness :
    parse_abap_object_text "hello world and more" = [] ∧
    load_objects_from_csv (fun _ => "") [[("obj_type", some "PROG")]] = [] ∧
    load_objects_from_json (JsonInput.decoded (Json.arr [Json.obj []])) =
      Except.error PyErr.attributeError := by
  refine ⟨?_, ?_, ?_⟩
  · exact C2_amended.2.2.1 "hello world and more" (by decide)
  · exact C2_amended.2.2.2.2.1 (fun _ => "") [[("obj_type", some "PROG")]] (by decide)
  · exact C2_amended.2.2.2.2.2.2.2 (Json.arr [Json.obj []]) (fun fs h => by cases h)

/-! ## Claim C9 -/

theorem rawPoints_no_bonus (o : Obj) :
    rawPoints [] [] o = ((basePoints (pyUpper o.obj_type) : ℤ) : ℚ) := by
  simp [rawPoints, criticalKeys, overlapCount]

/-- C9: the two-line scenario input parses to exactly the two expected
normalized keys, and — absent any bonuses (no impacted apps, no overlaps) —
the scorer assigns the PROG object 6 points and the CMOD object 8 points,
both as raw pre-rounding points and as rounded `risk_points`; an unknown
object type falls back to base 3. -/
theorem C9_scenario :
    ((parse_abap_object_text "R3TR PROG ZFI_POSTING_REPORT\nR3TR CMOD ZFI_EXIT_001").map
        (·.normalized_key) =
      ["R3TR:PROG:ZFI_POSTING_REPORT", "R3TR:CMOD:ZFI_EXIT_001"]) ∧
    ((parse_abap_object_text "R3TR PROG ZFI_POSTING_REPORT\nR3TR CMOD ZFI_EXIT_001").map
        (rawPoints [] []) = [6, 8]) ∧
    ((parse_abap_object_text "R3TR PROG ZFI_POSTING_REPORT\nR3TR CMOD ZFI_EXIT_001").map
        (fun o => (objectRisk [] [] o).risk_points) = [6, 8]) ∧
    basePoints "PROG" = 6 ∧ basePoints "CMOD" = 8 ∧ basePoints "QQQQ" = 3 := by
  have hparse : parse_abap_object_text "R3TR PROG ZFI_POSTING_REPORT\nR3TR CMOD ZFI_EXIT_001" =
      [_make_obj "R3TR".toList "PROG".toList "ZFI_POSTING_REPORT".toList
        "R3TR PROG ZFI_POSTING_REPORT".toList none none,
       _make_obj "R3TR".toList "CMOD".toList "ZFI_EXIT_001".toList
        "R3TR CMOD ZFI_EXIT_001".toList none none] := by decide
  have h1 : pyUpper (_make_obj "R3TR".toList "PROG".toList "ZFI_POSTING_REPORT".toList
      "R3TR PROG ZFI_POSTING_REPORT".toList none none).obj_type = "PROG" := by decide
  have h2 : pyUpper (_make_obj "R3TR".toList "CMOD".toList "ZFI_EXIT_001".toList
      "R3TR CMOD ZFI_EXIT_001".toList none none).obj_type = "CMOD" := by decide
  have hb1 : basePoints "PROG" = 6 := by decide
  have hb2 : basePoints "CMOD" = 8 := by decide
  have hr1 : rawPoints [] [] (_make_obj "R3TR".toList "PROG".toList "ZFI_POSTING_REPORT".toList
      "R3TR PROG ZFI_POSTING_REPORT".toList none none) = 6 := by
    rw [rawPoints_no_bonus, h1, hb1]
    norm_num
  have hr2 : rawPoints [] [] (_make_obj "R3TR".toList "CMOD".toList "ZFI_EXIT_001".toList
      "R3TR CMOD ZFI_EXIT_001".toList none none) = 8 := by
    rw [rawPoints_no_bonus, h2, hb2]
    norm_num
  refine ⟨by decide, ?_, ?_, hb1, hb2, by decide⟩
  · rw [hparse]
    simp only [List.map_cons, List.map_nil]
    rw [hr1, hr2]
  · rw [hparse]
    simp only [List.map_cons, List.map_nil, objectRisk]
    rw [hr1, hr2]
    norm_num [pyRound]

/-! ## Claim C5 -/

/-- C5: in every mode, when two or more input records share a
`normalized_key`, exactly one object with that key survives and it is the
most recently parsed such record (the membership is equivalent to being the
first hit of a reverse search of the record sequence); consequently the
output's normalized keys are pairwise distinct.  For JSON mode the statement
is about the success path of the loader. -/
theorem C5_dedup_last_wins :
    (∀ text : String,
      ((parse_abap_object_text text).map (·.normalized_key)).Nodup ∧
      ∀ o : Obj, o ∈ parse_abap_object_text text ↔
        (textRecords text).reverse.find?
          (fun r => decide (r.normalized_key = o.normalized_key)) = some o) ∧
    (∀ (dumps : CsvRow → String) (rows : List CsvRow),
      ((load_objects_from_csv dumps rows).map (·.normalized_key)).Nodup ∧
      ∀ o : Obj, o ∈ load_objects_from_csv dumps rows ↔
        (csvRecords dumps rows).reverse.find?
          (fun r => decide (r.normalized_key = o.normalized_key)) = some o) ∧
    (∀ (j : Json) (objs : List Obj), load_objects_from_json (JsonInput.decoded j) = .ok objs →
      (objs.map (·.normalized_key)).Nodup ∧
      ∀ o : Obj, o ∈ objs ↔
        (jsonModeRecords j).reverse.find?
          (fun r => decide (r.normalized_key = o.normalized_key)) = some o) := by
  refine ⟨?_, ?_, ?_⟩
  · intro text
    rw [parse_abap_object_text_eq]
    exact ⟨dedupByKey_keys_nodup _, fun o => mem_dedupByKey_iff _ o⟩
  · intro dumps rows
    unfold load_objects_from_csv
    exact ⟨dedupByKey_keys_nodup _, fun o => mem_dedupByKey_iff _ o⟩
  · intro j objs h
    cases j with
    | obj fs =>
      cases hit : jsonIterate (jsonGetD fs "objects" (Json.arr [])) with
      | error e =>
        simp [load_objects_from_json, hit] at h
      | ok xs =>
        cases hb : jsonBuild xs [] with
        | error e =>
          simp [load_objects_from_json, hit, hb, Except.map] at h
        | ok d =>
          have hobjs : objs = dedupByKey (jsonRecords xs) := by
            have hd := jsonBuild_ok xs [] d hb
            have hv : dictValues d = objs := by
              simpa [load_objects_from_json, hit, hb, Except.map] using h
            rw [← hv, hd]
            rfl
          have hrec : jsonModeRecords (Json.obj fs) = jsonRecords xs := by
            simp [jsonModeRecords, hit]
          rw [hobjs, hrec]
          exact ⟨dedupByKey_keys_nodup _, fun o => mem_dedupByKey_iff _ o⟩
    | null => simp [load_objects_from_json] at h
    | bool b => simp [load_objects_from_json] at h
    | num n => simp [load_objects_from_json] at h
    | str s => simp [load_objects_from_json] at h
    | arr ys => simp [load_objects_from_json] at h

/-- C5 witness: a decoded JSON input with two records sharing the key
`R3TR:PROG:ZX` (packages `P1` then `P2`) loads to exactly the later record.
-/
theorem C5_witness :
    _make_obj "R3TR".toList "PROG".toList "ZX".toList "".toList (some "P2".toList) none ∈
      [_make_obj "R3TR".toList "PROG".toList "ZX".toList "".toList (some "P2".toList) none] := by
  have h := (C5_dedup_last_wins.2.2
    (Json.obj [("objects", Json.arr
      [Json.obj [("obj_type", Json.str "PROG"), ("obj_name", Json.str "ZX"),
                 ("package", Json.str "P1")],
       Json.obj [("obj_type", Json.str "PROG"), ("obj_name", Json.str "ZX"),
                 ("package", Json.str "P2")]])])
    [_make_obj "R3TR".toList "PROG".toList "ZX".toList "".toList (some "P2".toList) none]
    (by rfl)).2
  exact (h _).mpr (by decide)

/-! ## Claim C3 -/

theorem dictLookup_mem {α : Type} :
    ∀ {d : List (String × α)} {k : String} {v : α}, dictLookup d k = some v → (k, v) ∈ d := by
  intro d
  induction d with
  | nil => intro k v h; simp [dictLookup] at h
  | cons p rest ih =>
    intro k v h
    obtain ⟨k0, v0⟩ := p
    simp only [dictLookup] at h
    split at h
    · rename_i heq
      subst heq
      cases h
      exact List.mem_cons_self _ _
    · exact List.mem_cons_of_mem _ (ih h)

theorem basePoints_pos (t : String) : 0 < basePoints t := by
  unfold basePoints
  cases h : dictLookup BASE_POINTS t with
  | none => simp
  | some v =>
    have hmem := dictLookup_mem h
    have hall : ∀ p ∈ BASE_POINTS, (0:Int) < p.2 := by decide
    simpa using hall _ hmem

theorem rawPoints_nonneg (apps : List ImpactedApp) (overlaps : List OverlapRec) (o : Obj) :
    0 ≤ rawPoints apps overlaps o := by
  have hb : (0:ℚ) ≤ ((basePoints (pyUpper o.obj_type) : ℤ) : ℚ) := by
    exact_mod_cast (basePoints_pos (pyUpper o.obj_type)).le
  unfold rawPoints
  dsimp only
  repeat' split
  all_goals linarith [hb]

theorem pyRound_nonneg {q : ℚ} (h : 0 ≤ q) : 0 ≤ pyRound q := by
  have hf : (0:ℤ) ≤ ⌊q⌋ := Int.floor_nonneg.mpr h
  unfold pyRound
  dsimp only
  repeat' split
  all_goals omega

theorem risk_level_iff (s : Int) :
    (_risk_level s = "High" ↔ 75 ≤ s) ∧
    (_risk_level s = "Medium" ↔ 40 ≤ s ∧ s < 75) ∧
    (_risk_level s = "Low" ↔ s < 40) := by
  unfold _risk_level
  split_ifs with h1 h2 <;> refine ⟨?_, ?_, ?_⟩ <;> simp <;> omega

/-- C3: for a non-empty object list the aggregate risk score is the rounded,
scaled mean of the raw pre-rounding points capped at 100 (the `max 1` floor
reduces to the object count); the score always lies in `[0, 100]`; and the
risk level matches the band thresholds exactly (≥75 High, ≥40 Medium, else
Low — so 39 is Low and 74 is Medium). -/
theorem C3_aggregate_score (change_id : String) (objects : List Obj)
    (apps : List ImpactedApp) (overlaps : List OverlapRec) (now : String)
    (hne : objects ≠ []) :
    ((score_change change_id objects apps overlaps now).summary.risk_score =
      min 100 (pyRound (((objects.map (rawPoints apps overlaps)).sum /
        (objects.length : ℚ)) * (5/4) * 10))) ∧
    (0 ≤ (score_change change_id objects apps overlaps now).summary.risk_score ∧
      (score_change change_id objects apps overlaps now).summary.risk_score ≤ 100) ∧
    ((score_change change_id objects apps overlaps now).summary.risk_level = "High" ↔
      75 ≤ (score_change change_id objects apps overlaps now).summary.risk_score) ∧
    ((score_change change_id objects apps overlaps now).summary.risk_level = "Medium" ↔
      40 ≤ (score_change change_id objects apps overlaps now).summary.risk_score ∧
        (score_change change_id objects apps overlaps now).summary.risk_score < 75) ∧
    ((score_change change_id objects apps overlaps now).summary.risk_level = "Low" ↔
      (score_change change_id objects apps overlaps now).summary.risk_score < 40) ∧
    _risk_level 39 = "Low" ∧ _risk_level 74 = "Medium" := by
  have hlen : 1 ≤ objects.length := List.length_pos.mpr hne
  have hmax : (max 1 objects.length) = objects.length := Nat.max_eq_right hlen
  have hsum : (0:ℚ) ≤ (objects.map (rawPoints apps overlaps)).sum :=
    List.sum_nonneg (by
      intro x hx
      obtain ⟨o, -, rfl⟩ := List.mem_map.mp hx
      exact rawPoints_nonneg apps overlaps o)
  have harg : (0:ℚ) ≤ ((objects.map (rawPoints apps overlaps)).sum /
      ((max 1 objects.length : Nat) : ℚ)) * (5/4) * 10 := by
    have h1 : (0:ℚ) ≤ ((max 1 objects.length : Nat) : ℚ) := by positivity
    have h2 : (0:ℚ) ≤ (objects.map (rawPoints apps overlaps)).sum /
        ((max 1 objects.length : Nat) : ℚ) := div_nonneg hsum h1
    linarith
  have hscore : (score_change change_id objects apps overlaps now).summary.risk_score =
      min 100 (pyRound (((objects.map (rawPoints apps overlaps)).sum /
        ((max 1 objects.length : Nat) : ℚ)) * (5/4) * 10)) := rfl
  have hlevel : (score_change change_id objects apps overlaps now).summary.risk_level =
      _risk_level ((score_change change_id objects apps overlaps now).summary.risk_score) := rfl
  refine ⟨?_, ⟨?_, ?_⟩, ?_, ?_, ?_, by decide, by decide⟩
  · rw [hscore, hmax]
  · rw [hscore]
    exact le_min (by norm_num) (pyRound_nonneg harg)
  · rw [hscore]
    exact min_le_left _ _
  · rw [hlevel]
    exact (risk_level_iff _).1
  · rw [hlevel]
    exact (risk_level_iff _).2.1
  · rw [hlevel]
    exact (risk_level_iff _).2.2

/-- C3 witness: the concrete single-object analysis has a score within
bounds. -/
theorem C3_witness :
    0 ≤ (score_change "CHG-1" [objNoPkg] [] [] "t").summary.risk_score ∧
    (score_change "CHG-1" [objNoPkg] [] [] "t").summary.risk_score ≤ 100 :=
  (C3_aggregate_score "CHG-1" [objNoPkg] [] [] "t" (by decide)).2.1

/-! ## Claim C8 -/

theorem impactKeyLe_trans {p q r : ℚ × Int} (h1 : impactKeyLe p q) (h2 : impactKeyLe q r) :
    impactKeyLe p r := by
  rcases h1 with h1 | ⟨e1, le1⟩ <;> rcases h2 with h2 | ⟨e2, le2⟩
  · exact Or.inl (lt_trans h1 h2)
  · exact Or.inl (by rw [← e2]; exact h1)
  · exact Or.inl (by rw [e1]; exact h2)
  · exact Or.inr ⟨e1.trans e2, le_trans le1 le2⟩

theorem impactKeyLe_total (p q : ℚ × Int) : impactKeyLe p q ∨ impactKeyLe q p := by
  rcases lt_trichotomy p.1 q.1 with h | h | h
  · exact Or.inl (Or.inl h)
  · rcases le_total p.2 q.2 with h2 | h2
    · exact Or.inl (Or.inr ⟨h, h2⟩)
    · exact Or.inr (Or.inr ⟨h.symm, h2⟩)
  · exact Or.inr (Or.inl h)

theorem impactLe_trans : ∀ (a b c : ImpactedApp),
    impactLe a b → impactLe b c → impactLe a c := by
  intro a b c h1 h2
  simp only [impactLe, decide_eq_true_eq] at h1 h2 ⊢
  exact impactKeyLe_trans h2 h1

theorem impactLe_total : ∀ (a b : ImpactedApp), impactLe a b || impactLe b a := by
  intro a b
  simp only [impactLe, Bool.or_eq_true, decide_eq_true_eq]
  exact (impactKeyLe_total _ _).symm

/-- C8: every `ImpactedApp` the Matcher returns has at least one matched
object and an impact score in `(0, 1]`; the returned list is a permutation
of the per-entry records (so zero-match entries never appear) sorted
descending by the lexicographic pair (impact_score, criticality); and the
sort is stable — a pair in catalog order whose keys satisfy the descending
comparison stays in that order. -/
theorem C8_impacted_invariants (objects : List Obj) (apps : List AppEntry) :
    (∀ r ∈ map_objects_to_apps objects apps,
      1 ≤ r.matched_objects ∧ 0 < r.impact_score ∧ r.impact_score ≤ 1) ∧
    (map_objects_to_apps objects apps).Pairwise
      (fun a b => impactKeyLe (b.impact_score, b.criticality) (a.impact_score, a.criticality)) ∧
    List.Perm (map_objects_to_apps objects apps) (apps.filterMap (entryRecord objects)) ∧
    (∀ a b : ImpactedApp, List.Sublist [a, b] (apps.filterMap (entryRecord objects)) →
      impactLe a b = true → List.Sublist [a, b] (map_objects_to_apps objects apps)) := by
  refine ⟨?_, ?_, ?_, ?_⟩
  · intro r hr
    rw [map_objects_to_apps, List.mem_mergeSort] at hr
    obtain ⟨e, -, he⟩ := List.mem_filterMap.mp hr
    unfold entryRecord at he
    dsimp only at he
    split at he
    · exact absurd he (by simp)
    · rename_i hne
      cases he
      have hlen : 1 ≤ (matchedOf objects e).length := by
        rcases Nat.eq_zero_or_pos (matchedOf objects e).length with h0 | h0
        · exact absurd (List.isEmpty_iff.mpr (List.length_eq_zero.mp h0)) (by simpa using hne)
        · exact h0
      refine ⟨hlen, ?_, min_le_left _ _⟩
      rw [lt_min_iff]
      refine ⟨by norm_num, div_pos ?_ ?_⟩
      · exact_mod_cast hlen
      · have : 1 ≤ max 1 objects.length := le_max_left _ _
        exact_mod_cast Nat.lt_of_lt_of_le Nat.zero_lt_one this
  · have hp := List.sorted_mergeSort impactLe_trans impactLe_total
      (apps.filterMap (entryRecord objects))
    rw [map_objects_to_apps]
    exact hp.imp fun h => by
      simpa [impactLe, decide_eq_true_eq] using h
  · exact List.mergeSort_perm _ impactLe
  · intro a b hsub hle
    rw [map_objects_to_apps]
    exact List.pair_sublist_mergeSort impactLe_trans impactLe_total hle hsub

/-! ## find_overlaps groundwork -/

theorem strLe_trans : ∀ (a b c : String), strLe a b → strLe b c → strLe a c := by
  intro a b c h1 h2
  simp only [strLe, decide_eq_true_eq] at h1 h2 ⊢
  exact le_trans h1 h2

theorem strLe_total : ∀ (a b : String), strLe a b || strLe b a := by
  intro a b
  simp only [strLe, Bool.or_eq_true, decide_eq_true_eq]
  exact le_total _ _

theorem overlapLe_trans : ∀ (a b c : OverlapRec),
    overlapLe a b → overlapLe b c → overlapLe a c := by
  intro a b c h1 h2
  simp only [overlapLe, decide_eq_true_eq] at h1 h2 ⊢
  omega

theorem overlapLe_total : ∀ (a b : OverlapRec), overlapLe a b || overlapLe b a := by
  intro a b
  simp only [overlapLe, Bool.or_eq_true, decide_eq_true_eq]
  omega

theorem mem_find_overlaps {parseIso : String → Option Int} {now : Int}
    {change_id : String} {objects : List Obj} {window_days : Int}
    {table : List HistRow} {rec : OverlapRec}
    (h : rec ∈ find_overlaps parseIso now change_id objects window_days table) :
    ∃ row ∈ table, row.change_id ≠ change_id ∧
      processRow parseIso (now - window_days) (objKeySet objects) row = some rec := by
  unfold find_overlaps at h
  have h1 := List.mem_of_mem_take h
  rw [List.mem_mergeSort] at h1
  obtain ⟨row, hrow, hp⟩ := List.mem_filterMap.mp h1
  obtain ⟨hmem, hneq⟩ := List.mem_filter.mp hrow
  exact ⟨row, hmem, by simpa using hneq, hp⟩

theorem processRow_cid {parseIso : String → Option Int} {cutoff : Int}
    {objSet : List String} {row : HistRow} {rec : OverlapRec}
    (h : processRow parseIso cutoff objSet row = some rec) :
    rec.other_change_id = row.change_id := by
  unfold processRow processRowBody at h
  dsimp only at h
  repeat' split at h
  all_goals cases h
  all_goals rfl

theorem processRow_shape {parseIso : String → Option Int} {cutoff : Int}
    {objSet : List String} {row : HistRow} {rec : OverlapRec}
    (h : processRow parseIso cutoff objSet row = some rec) :
    ∃ keys : List Json,
      rec.shared_object_count = (sharedList objSet keys).length ∧
      rec.shared_objects = (sharedList objSet keys).take 200 ∧
      sharedList objSet keys ≠ [] := by
  unfold processRow processRowBody at h
  dsimp only at h
  repeat' split at h
  all_goals cases h
  all_goals
    rename_i hsh
    exact ⟨_, rfl, rfl, by simpa [List.isEmpty_iff] using hsh⟩

theorem processRow_window_skip {parseIso : String → Option Int} {cutoff : Int}
    {objSet : List String} {row : HistRow} {s : String} {t : Int}
    (hgen : row.generated_at = some s) (hs : s ≠ "") (hp : parseIso s = some t)
    (ht : t < cutoff) :
    processRow parseIso cutoff objSet row = none := by
  unfold processRow
  rw [hgen]
  simp [hs, hp, ht]

/-! ## Claim C4 -/

/-- C4: a stored change other than the current one whose parsable timestamp
is strictly earlier than `now - window_days` contributes no overlap record,
no matter how many objects it shares (the `change_id` is a primary key, so
at most one row carries it). -/
theorem C4_window_exclusion (parseIso : String → Option Int) (now : Int)
    (change_id : String) (objects : List Obj) (window_days : Int)
    (table : List HistRow) (row : HistRow) (s : String) (t : Int)
    (hmem : row ∈ table)
    (hpk : ∀ r ∈ table, r.change_id = row.change_id → r = row)
    (hgen : row.generated_at = some s) (hs : s ≠ "")
    (hp : parseIso s = some t) (ht : t < now - window_days) :
    ∀ rec ∈ find_overlaps parseIso now change_id objects window_days table,
      rec.other_change_id ≠ row.change_id := by
  intro rec hrec heq
  obtain ⟨r', hr'mem, hr'neq, hr'proc⟩ := mem_find_overlaps hrec
  have hcid : rec.other_change_id = r'.change_id := processRow_cid hr'proc
  have : r' = row := hpk r' hr'mem (by rw [← hcid, heq])
  subst this
  rw [processRow_window_skip hgen hs hp ht] at hr'proc
  exact absurd hr'proc (by simp)

/-- C4 witness: with the single stored row `CHG-0` (timestamp parsing to 0,
cutoff 70) sharing an object with the current change, no overlap record
names `CHG-0`. -/
theorem C4_window_exclusion_witness :
    (find_overlaps (fun _ => some 0) 100 "CHG-1" [objNoPkg] 30
      [⟨"CHG-0", some "2020-01-01", some (Json.obj [("object_risks",
        Json.arr [Json.obj [("normalized_key", Json.str "R3TR:PROG:ZX")]])])⟩]).all
      (fun rec => decide (rec.other_change_id ≠ "CHG-0")) = true := by
  rw [List.all_eq_true]
  intro rec hrec
  exact decide_eq_true
    (C4_window_exclusion (fun _ => some 0) 100 "CHG-1" [objNoPkg] 30 _ _ "2020-01-01" 0
      (List.mem_singleton.mpr rfl)
      (by intro r hr _; simpa using hr)
      rfl (by decide) rfl (by decide) rec hrec)

/-! ## Claim C6 -/

/-- C6: every record `find_overlaps` returns has at least one shared object,
a shared-object list that is sorted (code-point order) and holds at most 200
keys; the result is sorted by `shared_object_count` descending and holds at
most 25 records. -/
theorem C6_overlap_result_shape (parseIso : String → Option Int) (now : Int)
    (change_id : String) (objects : List Obj) (window_days : Int)
    (table : List HistRow) :
    (∀ rec ∈ find_overlaps parseIso now change_id objects window_days table,
      1 ≤ rec.shared_object_count ∧ rec.shared_objects.length ≤ 200 ∧
      rec.shared_objects.Pairwise (fun a b : String => a.data ≤ b.data)) ∧
    (find_overlaps parseIso now change_id objects window_days table).length ≤ 25 ∧
    (find_overlaps parseIso now change_id objects window_days table).Pairwise
      (fun a b => b.shared_object_count ≤ a.shared_object_count) := by
  refine ⟨?_, ?_, ?_⟩
  · intro rec hrec
    obtain ⟨row, -, -, hproc⟩ := mem_find_overlaps hrec
    obtain ⟨keys, hcount, hlist, hne⟩ := processRow_shape hproc
    refine ⟨?_, ?_, ?_⟩
    · rw [hcount]
      exact Nat.one_le_iff_ne_zero.mpr (by simpa using hne)
    · rw [hlist]
      exact List.length_take_le _ _
    · rw [hlist]
      have hsorted := List.sorted_mergeSort strLe_trans strLe_total
        (List.filter (fun k => keys.contains (Json.str k)) (objKeySet objects))
      exact List.Pairwise.sublist (List.take_sublist _ _)
        (hsorted.imp fun h => by simpa [strLe, decide_eq_true_eq] using h)
  · unfold find_overlaps
    exact List.length_take_le _ _
  · unfold find_overlaps
    have hsorted := List.sorted_mergeSort overlapLe_trans overlapLe_total
      ((table.filter fun r => r.change_id ≠ change_id).filterMap
        (processRow parseIso (now - window_days) (objKeySet objects)))
    exact List.Pairwise.sublist (List.take_sublist _ _)
      (hsorted.imp fun h => by simpa [overlapLe, decide_eq_true_eq] using h)

/-! ## Claim C7 -/

theorem processRow_of_body_none {parseIso : String → Option Int} {cutoff : Int}
    {objSet : List String} {row : HistRow}
    (hbody : processRowBody objSet row = none) :
    processRow parseIso cutoff objSet row = none := by
  unfold processRow
  cases row.generated_at with
  | none => exact hbody
  | some s =>
    by_cases hs : s = ""
    · simp [hs, hbody]
    · simp only [hs, if_false]
      cases parseIso s with
      | none => rfl
      | some t =>
        by_cases ht : t < cutoff <;> simp [ht, hbody]

/-- A malformed or field-less stored row: undecodable/NULL `findings_json`,
a decoded non-dict, or a dict carrying neither `object_risks` nor
`objects`. -/
def rowMalformed (row : HistRow) : Prop :=
  row.findings_json = none ∨
  (∃ j, row.findings_json = some j ∧ ∀ fs, j ≠ Json.obj fs) ∨
  (∃ fs, row.findings_json = some (Json.obj fs) ∧
    dictLookup fs "object_risks" = none ∧ dictLookup fs "objects" = none)

theorem processRowBody_malformed {objSet : List String} {row : HistRow}
    (h : rowMalformed row) : processRowBody objSet row = none := by
  unfold processRowBody
  rcases h with h | ⟨j, hj, hnot⟩ | ⟨fs, hfs, h1, h2⟩
  · rw [h]
  · rw [hj]
    cases j with
    | obj fs => exact absurd rfl (hnot fs)
    | null => rfl
    | bool b => rfl
    | num n => rfl
    | str s => rfl
    | arr xs => rfl
  · rw [hfs]
    have hkeys : storedKeys fs = Except.ok [] := by
      unfold storedKeys risksKeys
      rw [show jsonGetD fs "object_risks" (Json.arr []) = Json.arr [] by
        simp [jsonGetD, h1]]
      rw [show jsonGetD fs "objects" Json.null = Json.null by
        simp [jsonGetD, h2]]
      rfl
    dsimp only
    rw [hkeys]
    have hshared : sharedList objSet [] = [] := by
      unfold sharedList
      have hfil : objSet.filter (fun k => ([] : List Json).contains (Json.str k)) = [] := by
        simp [List.contains]
      rw [hfil]
      simp
    simp [hshared]

/-- C7: a stored row with malformed `findings_json` (undecodable text, a
non-dict value, or a dict without the expected fields) is skipped exactly:
the overlap query never aborts and returns precisely the records computed
from the remaining rows. -/
theorem C7_malformed_row_skipped (parseIso : String → Option Int) (now : Int)
    (change_id : String) (objects : List Obj) (window_days : Int)
    (pre post : List HistRow) (row : HistRow) (hbad : rowMalformed row) :
    find_overlaps parseIso now change_id objects window_days (pre ++ row :: post) =
      find_overlaps parseIso now change_id objects window_days (pre ++ post) := by
  have hskip : processRow parseIso (now - window_days) (objKeySet objects) row = none :=
    processRow_of_body_none (processRowBody_malformed hbad)
  unfold find_overlaps
  have heq : ((pre ++ row :: post).filter fun r => r.change_id ≠ change_id).filterMap
      (processRow parseIso (now - window_days) (objKeySet objects)) =
      ((pre ++ post).filter fun r => r.change_id ≠ change_id).filterMap
      (processRow parseIso (now - window_days) (objKeySet objects)) := by
    rw [List.filter_append, List.filter_append, List.filter_cons]
    split
    · rw [List.filterMap_append, List.filterMap_append, List.filterMap_cons, hskip]
    · rfl
  dsimp only
  rw [heq]

/-- C7 witness: a concrete two-row table where the malformed middle row
(non-JSON `findings_json`) is dropped and the well-formed row still yields
its overlap record. -/
theorem C7_malformed_row_skipped_witness :
    find_overlaps (fun _ => none) 0 "CUR" [objNoPkg] 30
      ([⟨"CHG-A", none, some (Json.obj [("object_risks",
          Json.arr [Json.obj [("normalized_key", Json.str "R3TR:PROG:ZX")]])])⟩] ++
        ⟨"CHG-B", none, none⟩ ::
        []) =
    find_overlaps (fun _ => none) 0 "CUR" [objNoPkg] 30
      [⟨"CHG-A", none, some (Json.obj [("object_risks",
          Json.arr [Json.obj [("normalized_key", Json.str "R3TR:PROG:ZX")]])])⟩] :=
  C7_malformed_row_skipped (fun _ => none) 0 "CUR" [objNoPkg] 30 _ [] _ (Or.inl rfl)

/-! ## Claim C10 -/

theorem except_bind_ok {α β : Type} (a : α) (f : α → Except PyErr β) :
    (Except.ok a >>= f) = f a := rfl

theorem getKeysList_key_dicts (ks : List String) :
    getKeysList (ks.map fun k => Json.obj [("normalized_key", Json.str k)]) =
      Except.ok (ks.map Json.str) := by
  induction ks with
  | nil => rfl
  | cons k t ih => simp [getKeysList, ih, jsonGetD, dictLookup]

theorem risksKeys_key_dicts (ks : List String) :
    risksKeys (Json.arr (ks.map fun k => Json.obj [("normalized_key", Json.str k)])) =
      Except.ok ((ks.filter fun k => k ≠ "").map Json.str) := by
  unfold risksKeys
  rw [show jsonIterate (Json.arr (ks.map fun k => Json.obj [("normalized_key", Json.str k)])) =
    Except.ok (ks.map fun k => Json.obj [("normalized_key", Json.str k)]) from rfl]
  rw [except_bind_ok]
  rw [getKeysList_key_dicts]
  rw [except_bind_ok]
  have hfil : (ks.map Json.str).filter jsonTruthy = (ks.filter fun k => k ≠ "").map Json.str := by
    rw [List.filter_map]
    rfl
  have hany : ((ks.filter fun k => k ≠ "").map Json.str).any jsonUnhashable = false := by
    rw [List.any_eq_false]
    intro x hx
    obtain ⟨k, -, rfl⟩ := List.mem_map.mp hx
    simp [jsonUnhashable]
  rw [hfil]
  dsimp only
  rw [hany]
  rfl

theorem bigKeys_ne_empty : ∀ k ∈ bigKeys, k ≠ "" := by
  intro k hk
  obtain ⟨i, -, rfl⟩ := List.mem_map.mp hk
  intro h
  have hdata : (String.mk (List.replicate (i + 1) 'a')).data = ("" : String).data := by rw [h]
  simp at hdata

theorem bigKeys_nodup : bigKeys.Nodup := by
  refine List.Nodup.map ?_ (List.nodup_range _)
  intro i j hij
  have hlen := congrArg (fun s : String => s.data.length) hij
  simpa using hlen

theorem objKeySet_big : objKeySet bigObjects = bigKeys := by
  unfold objKeySet bigObjects
  rw [List.map_map]
  have hmap : bigKeys.map ((fun o : Obj => o.normalized_key) ∘ fun k =>
      ({ obj_class := "", obj_type := "", obj_name := "", subtype := none,
         package := none, component := none, raw := "", normalized_key := k } : Obj)) =
      bigKeys := by
    rw [show ((fun o : Obj => o.normalized_key) ∘ fun k =>
      ({ obj_class := "", obj_type := "", obj_name := "", subtype := none,
         package := none, component := none, raw := "", normalized_key := k } : Obj)) =
      fun k => k from rfl]
    exact List.map_id _
  rw [hmap]
  rw [List.filter_eq_self.mpr (fun k hk => decide_eq_true (bigKeys_ne_empty k hk))]
  exact List.dedup_eq_self.mpr bigKeys_nodup

theorem contains_str_map (l : List String) (k : String) (hk : k ∈ l) :
    (l.map Json.str).contains (Json.str k) = true := by
  induction l with
  | nil => simp at hk
  | cons a t ih =>
    rcases List.mem_cons.mp hk with rfl | hk'
    · have hbeq : (Json.str k == Json.str k) = true := by
        simp [BEq.beq, Json.beq]
      simp [List.contains_cons, hbeq]
    · simp [List.contains_cons, ih hk']

theorem sharedList_big :
    sharedList (objKeySet bigObjects) (bigKeys.map Json.str) =
      bigKeys.mergeSort strLe := by
  unfold sharedList
  rw [objKeySet_big]
  rw [List.filter_eq_self.mpr (fun k hk => contains_str_map bigKeys k hk)]

theorem bigKeys_length : bigKeys.length = 201 := by
  unfold bigKeys
  rw [List.length_map, List.length_range]

theorem storedKeys_big :
    storedKeys [("object_risks",
        Json.arr (bigKeys.map fun k => Json.obj [("normalized_key", Json.str k)]))] =
      Except.ok (bigKeys.map Json.str) := by
  unfold storedKeys
  rw [show jsonGetD [("object_risks",
      Json.arr (bigKeys.map fun k => Json.obj [("normalized_key", Json.str k)]))]
      "object_risks" (Json.arr []) =
      Json.arr (bigKeys.map fun k => Json.obj [("normalized_key", Json.str k)]) by
    simp [jsonGetD, dictLookup]]
  rw [risksKeys_key_dicts]
  rw [List.filter_eq_self.mpr (fun k hk => decide_eq_true (bigKeys_ne_empty k hk))]
  rw [except_bind_ok]
  have hne : (bigKeys.map Json.str).isEmpty = false := by
    have : (bigKeys.map Json.str).length = 201 := by
      rw [List.length_map, bigKeys_length]
    cases hmap : bigKeys.map Json.str with
    | nil => rw [hmap] at this; simp at this
    | cons a t => rfl
  rw [hne]
  rfl

theorem processRow_big :
    processRow (fun _ => none) 0 (objKeySet bigObjects) bigRow =
      some { other_change_id := "OLD",
             shared_object_count := (bigKeys.mergeSort strLe).length,
             shared_objects := (bigKeys.mergeSort strLe).take 200 } := by
  unfold processRow bigRow
  dsimp only
  unfold processRowBody
  dsimp only
  rw [storedKeys_big]
  dsimp only
  rw [sharedList_big]
  have hne : (bigKeys.mergeSort strLe).isEmpty = false := by
    have hl : (bigKeys.mergeSort strLe).length = 201 := by
      rw [List.length_mergeSort, bigKeys_length]
    cases hm : bigKeys.mergeSort strLe with
    | nil => rw [hm] at hl; simp at hl
    | cons a t => rfl
  rw [hne]
  rfl

/-- C10: every returned record's `shared_object_count` is the size of the
full sorted intersection while `shared_objects` is only its first 200 keys —
so the list length never exceeds the count nor 200 — and the count itself
can exceed 200 (a stored change sharing 201 keys yields a record with count
201 and a 200-key list). -/
theorem C10_count_vs_list (parseIso : String → Option Int) (now : Int)
    (change_id : String) (objects : List Obj) (window_days : Int)
    (table : List HistRow) :
    (∀ rec ∈ find_overlaps parseIso now change_id objects window_days table,
      ∃ keys : List Json,
        rec.shared_object_count = (sharedList (objKeySet objects) keys).length ∧
        rec.shared_objects = (sharedList (objKeySet objects) keys).take 200 ∧
        rec.shared_objects.length ≤ rec.shared_object_count ∧
        rec.shared_objects.length ≤ 200) ∧
    (∃ rec ∈ find_overlaps (fun _ => none) 0 "CUR" bigObjects 0 [bigRow],
      200 < rec.shared_object_count ∧ rec.shared_objects.length = 200) := by
  constructor
  · intro rec hrec
    obtain ⟨row, -, -, hproc⟩ := mem_find_overlaps hrec
    obtain ⟨keys, hcount, hlist, -⟩ := processRow_shape hproc
    refine ⟨keys, hcount, hlist, ?_, ?_⟩
    · rw [hcount, hlist, List.length_take]
      exact min_le_right _ _
    · rw [hlist, List.length_take]
      exact min_le_left _ _
  · have hlen : (bigKeys.mergeSort strLe).length = 201 := by
      rw [List.length_mergeSort, bigKeys_length]
    refine ⟨{ other_change_id := "OLD",
              shared_object_count := (bigKeys.mergeSort strLe).length,
              shared_objects := (bigKeys.mergeSort strLe).take 200 }, ?_, ?_, ?_⟩
    · unfold find_overlaps
      have hfil : ([bigRow].filter fun r => r.change_id ≠ "CUR") = [bigRow] := by
        simp [bigRow]
      dsimp only
      rw [hfil, List.filterMap_cons]
      rw [show (0 : Int) - 0 = 0 from rfl]
      rw [processRow_big]
      simp
    · rw [hlen]
      norm_num
    · rw [List.length_take, hlen]
      decide

end Navica
